import Mathlib

/-!
Verification of the robot-vacuum simulation core against its specification.

The Python sources are shallowly embedded: float arithmetic is modelled by
real numbers, Python `set` by `Finset`, mutation by explicit state passing,
and methods returning a success flag by `Bool × State` pairs.  Loops are
embedded either structurally (`for` over a range) or with an explicit
iteration budget matching the source's bounded loop.
-/

namespace RobotSim

/-- Python `int()` applied to a float: truncation toward zero. -/
noncomputable def truncInt (x : ℝ) : ℤ := if 0 ≤ x then ⌊x⌋ else ⌈x⌉

/-! ## Embedding of `robot.py` -/

/-- Robot operational states (`class RobotState`). -/
inductive RobotState where
  | idle
  | cleaning
  | returningToDock
  | charging
  | error
  | stuck
deriving DecidableEq

/-- 2D position (`class Position`), float coordinates modelled as reals. -/
structure Position where
  x : ℝ
  y : ℝ

/-- `Position.distance_to`: Euclidean distance. -/
noncomputable def Position.distance_to (p other : Position) : ℝ :=
  Real.sqrt ((p.x - other.x) ^ 2 + (p.y - other.y) ^ 2)

/-- `Position.to_grid`: `(int(self.x), int(self.y))`, truncation toward zero. -/
noncomputable def Position.to_grid (p : Position) : ℤ × ℤ :=
  (truncInt p.x, truncInt p.y)

/-- Operational statistics (`class RobotStats`). -/
structure RobotStats where
  total_distance : ℝ
  area_cleaned : ℕ
  cleaning_time : ℝ
  battery_cycles : ℕ
  errors_encountered : ℕ
  stuck_count : ℕ

/-- Initial statistics: all fields zero. -/
def RobotStats.initial : RobotStats :=
  { total_distance := 0
    area_cleaned := 0
    cleaning_time := 0
    battery_cycles := 0
    errors_encountered := 0
    stuck_count := 0 }

/-- State of `class RobotVacuum` (the fields the verified claims mention). -/
structure RobotVacuum where
  position : Position
  battery_capacity : ℝ
  battery_level : ℝ
  state : RobotState
  dock_position : Option Position
  stats : RobotStats
  cleaned_cells : Finset (ℤ × ℤ)
  visited_cells : Finset (ℤ × ℤ)
  path_history : List Position

/-- `RobotVacuum.__init__`: battery starts at capacity, no dock, empty cell
sets, path history seeded with the initial position. -/
def RobotVacuum.init (position : Position) (battery_capacity : ℝ) : RobotVacuum :=
  { position := position
    battery_capacity := battery_capacity
    battery_level := battery_capacity
    state := RobotState.idle
    dock_position := none
    stats := RobotStats.initial
    cleaned_cells := ∅
    visited_cells := ∅
    path_history := [position] }

/-- `RobotVacuum.move(dx, dy)`: returns the success flag together with the
updated robot state. -/
noncomputable def RobotVacuum.move (r : RobotVacuum) (dx dy : ℝ) : Bool × RobotVacuum :=
  if r.battery_level ≤ 0 then
    (false, { r with state := RobotState.error })
  else
    let new_position : Position := ⟨r.position.x + dx, r.position.y + dy⟩
    let distance := Real.sqrt (dx ^ 2 + dy ^ 2)
    let battery_consumption := distance * 0.1
    let grid_pos := new_position.to_grid
    let cleaned := insert grid_pos r.cleaned_cells
    (true,
      { r with
        position := new_position
        path_history := r.path_history ++ [new_position]
        stats :=
          { r.stats with
            total_distance := r.stats.total_distance + distance
            area_cleaned := cleaned.card }
        battery_level := max 0 (r.battery_level - battery_consumption)
        visited_cells := insert grid_pos r.visited_cells
        cleaned_cells := cleaned })

/-- `RobotVacuum.should_return_to_dock`: low battery, or battery below the
estimated return cost (distance · 0.1 · 1.5) plus a 10-unit reserve. -/
noncomputable def RobotVacuum.should_return_to_dock (r : RobotVacuum) : Prop :=
  r.battery_level < 20 ∨
    match r.dock_position with
    | some dock => r.battery_level < r.position.distance_to dock * 0.1 * 1.5 + 10
    | none => False

/-- `RobotVacuum.charge(charge_rate)`: clamp the battery at capacity, report
whether the battery is full, and bump the cycle counter on every call that
ends at capacity. -/
noncomputable def RobotVacuum.charge (r : RobotVacuum) (charge_rate : ℝ) : Bool × RobotVacuum :=
  let new_level := min r.battery_capacity (r.battery_level + charge_rate)
  if r.battery_capacity ≤ new_level then
    (true,
      { r with
        state := RobotState.charging
        battery_level := new_level
        stats := { r.stats with battery_cycles := r.stats.battery_cycles + 1 } })
  else
    (false, { r with state := RobotState.charging, battery_level := new_level })

/-- `RobotVacuum.set_dock_position`. -/
def RobotVacuum.set_dock_position (r : RobotVacuum) (p : Position) : RobotVacuum :=
  { r with dock_position := some p }

/-- `RobotVacuum.reset_stats`. -/
def RobotVacuum.reset_stats (r : RobotVacuum) : RobotVacuum :=
  { r with
    stats := RobotStats.initial
    cleaned_cells := ∅
    visited_cells := ∅
    path_history := [r.position] }

/-- Robot states reachable through the public operations of `RobotVacuum`.
Construction uses a nonnegative battery capacity and charging uses a
nonnegative charge amount (the source defaults are 100.0 and 10.0). -/
inductive Reachable : RobotVacuum → Prop where
  | init (p : Position) (c : ℝ) (hc : 0 ≤ c) : Reachable (RobotVacuum.init p c)
  | move (r : RobotVacuum) (dx dy : ℝ) : Reachable r → Reachable (r.move dx dy).2
  | charge (r : RobotVacuum) (rate : ℝ) (hrate : 0 ≤ rate) :
      Reachable r → Reachable (r.charge rate).2
  | set_dock (r : RobotVacuum) (p : Position) :
      Reachable r → Reachable (r.set_dock_position p)
  | reset (r : RobotVacuum) : Reachable r → Reachable r.reset_stats

lemma charge_battery (r : RobotVacuum) (rate : ℝ) :
    (r.charge rate).2.battery_level = min r.battery_capacity (r.battery_level + rate) := by
  simp only [RobotVacuum.charge]
  split <;> rfl

lemma charge_capacity (r : RobotVacuum) (rate : ℝ) :
    (r.charge rate).2.battery_capacity = r.battery_capacity := by
  simp only [RobotVacuum.charge]
  split <;> rfl

lemma move_fail (r : RobotVacuum) (dx dy : ℝ) (h : r.battery_level ≤ 0) :
    r.move dx dy = (false, { r with state := RobotState.error }) := by
  simp only [RobotVacuum.move, if_pos h]

lemma move_succ (r : RobotVacuum) (dx dy : ℝ) (h : 0 < r.battery_level) :
    r.move dx dy =
      (true,
        { r with
          position := ⟨r.position.x + dx, r.position.y + dy⟩
          path_history := r.path_history ++ [⟨r.position.x + dx, r.position.y + dy⟩]
          stats :=
            { r.stats with
              total_distance := r.stats.total_distance + Real.sqrt (dx ^ 2 + dy ^ 2)
              area_cleaned :=
                (insert (Position.to_grid ⟨r.position.x + dx, r.position.y + dy⟩)
                  r.cleaned_cells).card }
          battery_level := max 0 (r.battery_level - Real.sqrt (dx ^ 2 + dy ^ 2) * 0.1)
          visited_cells :=
            insert (Position.to_grid ⟨r.position.x + dx, r.position.y + dy⟩) r.visited_cells
          cleaned_cells :=
            insert (Position.to_grid ⟨r.position.x + dx, r.position.y + dy⟩)
              r.cleaned_cells }) := by
  simp only [RobotVacuum.move, if_neg (not_le.mpr h)]

lemma move_battery_le (r : RobotVacuum) (dx dy : ℝ) (h0 : 0 ≤ r.battery_level) :
    (r.move dx dy).2.battery_level ≤ r.battery_level := by
  rcases le_or_lt r.battery_level 0 with h | h
  · rw [move_fail r dx dy h]
  · rw [move_succ r dx dy h]
    have hs : 0 ≤ Real.sqrt (dx ^ 2 + dy ^ 2) := Real.sqrt_nonneg _
    have : r.battery_level - Real.sqrt (dx ^ 2 + dy ^ 2) * 0.1 ≤ r.battery_level := by
      nlinarith
    exact max_le h0 this

lemma move_capacity (r : RobotVacuum) (dx dy : ℝ) :
    (r.move dx dy).2.battery_capacity = r.battery_capacity := by
  rcases le_or_lt r.battery_level 0 with h | h
  · rw [move_fail r dx dy h]
  · rw [move_succ r dx dy h]

lemma reachable_battery_bounds {r : RobotVacuum} (h : Reachable r) :
    0 ≤ r.battery_capacity ∧ 0 ≤ r.battery_level ∧
      r.battery_level ≤ r.battery_capacity := by
  induction h with
  | init p c hc => exact ⟨hc, hc, le_rfl⟩
  | move r dx dy _ ih =>
    obtain ⟨hc, h0, hcap⟩ := ih
    refine ⟨by rw [move_capacity]; exact hc, ?_, ?_⟩
    · rcases le_or_lt r.battery_level 0 with h | h
      · rw [move_fail r dx dy h]; exact h0
      · rw [move_succ r dx dy h]; exact le_max_left _ _
    · rw [move_capacity]
      exact le_trans (move_battery_le r dx dy h0) hcap
  | charge r rate hrate _ ih =>
    obtain ⟨hc, h0, hcap⟩ := ih
    refine ⟨by rw [charge_capacity]; exact hc, ?_, ?_⟩
    · rw [charge_battery]
      exact le_min hc (by linarith)
    · rw [charge_battery, charge_capacity]
      exact min_le_left _ _
  | set_dock r p _ ih => simpa [RobotVacuum.set_dock_position] using ih
  | reset r _ ih => simpa [RobotVacuum.reset_stats] using ih

lemma charge_full (r : RobotVacuum) (rate : ℝ)
    (h : r.battery_capacity ≤ r.battery_level + rate) :
    r.charge rate =
      (true,
        { r with
          state := RobotState.charging
          battery_level := r.battery_capacity
          stats := { r.stats with battery_cycles := r.stats.battery_cycles + 1 } }) := by
  simp only [RobotVacuum.charge, min_eq_left h, if_pos le_rfl]

lemma charge_below_cap (r : RobotVacuum) (rate : ℝ)
    (h : r.battery_level + rate < r.battery_capacity) :
    r.charge rate =
      (false,
        { r with
          state := RobotState.charging
          battery_level := r.battery_level + rate }) := by
  simp only [RobotVacuum.charge, min_eq_right h.le, if_neg (not_le.mpr h)]

/-- C1 (amended): with positive battery, `move(dx, dy)` returns success,
shifts the position by `(dx, dy)`, appends the new position to the path
history, adds `√(dx² + dy²)` to the total distance, decreases the battery by
`0.1·√(dx² + dy²)` clamped below at 0, and inserts the grid cell of the new
position — coordinates truncated toward zero, as Python `int()` does — into
both `cleaned_cells` and `visited_cells`; with battery at or below 0 the call
fails, sets the error state, and leaves position, path history, stats,
battery and the cell sets unchanged. -/
theorem move_postconditions (r : RobotVacuum) (dx dy : ℝ) :
    (0 < r.battery_level →
      (r.move dx dy).1 = true ∧
      (r.move dx dy).2.position.x = r.position.x + dx ∧
      (r.move dx dy).2.position.y = r.position.y + dy ∧
      (r.move dx dy).2.path_history =
        r.path_history ++ [⟨r.position.x + dx, r.position.y + dy⟩] ∧
      (r.move dx dy).2.stats.total_distance =
        r.stats.total_distance + Real.sqrt (dx ^ 2 + dy ^ 2) ∧
      (r.move dx dy).2.battery_level =
        max 0 (r.battery_level - 0.1 * Real.sqrt (dx ^ 2 + dy ^ 2)) ∧
      (r.move dx dy).2.cleaned_cells =
        insert (truncInt (r.position.x + dx), truncInt (r.position.y + dy))
          r.cleaned_cells ∧
      (r.move dx dy).2.visited_cells =
        insert (truncInt (r.position.x + dx), truncInt (r.position.y + dy))
          r.visited_cells) ∧
    (r.battery_level ≤ 0 →
      (r.move dx dy).1 = false ∧
      (r.move dx dy).2.state = RobotState.error ∧
      (r.move dx dy).2.position = r.position ∧
      (r.move dx dy).2.path_history = r.path_history ∧
      (r.move dx dy).2.stats = r.stats ∧
      (r.move dx dy).2.battery_level = r.battery_level ∧
      (r.move dx dy).2.cleaned_cells = r.cleaned_cells ∧
      (r.move dx dy).2.visited_cells = r.visited_cells) := by
  constructor
  · intro h
    rw [move_succ r dx dy h]
    refine ⟨rfl, rfl, rfl, rfl, rfl, by rw [mul_comm], ?_, ?_⟩ <;>
      simp [Position.to_grid]
  · intro h
    rw [move_fail r dx dy h]
    exact ⟨rfl, rfl, rfl, rfl, rfl, rfl, rfl, rfl⟩

/-- Witness for `move_postconditions`: a fresh robot with full battery at the
origin moves by (3, 4) successfully; a robot built with capacity 0 fails. -/
theorem move_postconditions_witness :
    (0 < (RobotVacuum.init ⟨0, 0⟩ 100).battery_level ∧
      ((RobotVacuum.init ⟨0, 0⟩ 100).move 3 4).1 = true) ∧
    ((RobotVacuum.init ⟨0, 0⟩ 0).battery_level ≤ 0 ∧
      ((RobotVacuum.init ⟨0, 0⟩ 0).move 3 4).1 = false) := by
  have h1 : 0 < (RobotVacuum.init ⟨0, 0⟩ 100).battery_level := by
    norm_num [RobotVacuum.init]
  have h2 : (RobotVacuum.init ⟨0, 0⟩ 0).battery_level ≤ 0 := by
    norm_num [RobotVacuum.init]
  exact ⟨⟨h1, ((move_postconditions _ 3 4).1 h1).1⟩,
    ⟨h2, ((move_postconditions _ 3 4).2 h2).1⟩⟩

/-- C1 counterexample: the claim says the *floor* of the new position is added
to the cell sets, but the code truncates toward zero.  Starting at
(−1/2, −1/2) with full battery, a zero move succeeds, the floor cell of the
new position is (−1, −1), yet (−1, −1) is not in `cleaned_cells`. -/
theorem move_floor_counterexample :
    (((RobotVacuum.init ⟨-(1 / 2), -(1 / 2)⟩ 100).move 0 0).1 = true) ∧
    (⌊(-(1 / 2) : ℝ) + 0⌋, ⌊(-(1 / 2) : ℝ) + 0⌋) = ((-1, -1) : ℤ × ℤ) ∧
    ((-1, -1) : ℤ × ℤ) ∉
      (((RobotVacuum.init ⟨-(1 / 2), -(1 / 2)⟩ 100).move 0 0).2).cleaned_cells := by
  have hb : 0 < (RobotVacuum.init ⟨-(1 / 2), -(1 / 2)⟩ 100).battery_level := by
    norm_num [RobotVacuum.init]
  have hfl : ⌊(-(1 / 2) : ℝ) + 0⌋ = (-1 : ℤ) := by
    rw [Int.floor_eq_iff]
    norm_num
  have htr : truncInt ((-(1 / 2) : ℝ) + 0) = 0 := by
    rw [truncInt, if_neg (by norm_num)]
    rw [Int.ceil_eq_iff]
    norm_num
  refine ⟨(move_succ _ 0 0 hb) ▸ rfl, by rw [hfl], ?_⟩
  rw [move_succ _ 0 0 hb]
  simp only [RobotVacuum.init, Position.to_grid, htr]
  simp

/-- C2 (amended): in every reachable state the battery lies in
[0, capacity]; a successful move never increases the battery and strictly
decreases it when the displacement is nonzero; a charge call with positive
rate strictly increases the battery while below capacity and keeps it at
capacity once reached. -/
theorem battery_dynamics :
    (∀ r : RobotVacuum, Reachable r →
      0 ≤ r.battery_level ∧ r.battery_level ≤ r.battery_capacity) ∧
    (∀ (r : RobotVacuum) (dx dy : ℝ), (r.move dx dy).1 = true →
      (r.move dx dy).2.battery_level ≤ r.battery_level ∧
      (¬(dx = 0 ∧ dy = 0) →
        (r.move dx dy).2.battery_level < r.battery_level)) ∧
    (∀ (r : RobotVacuum) (rate : ℝ), 0 < rate →
      (r.battery_level < r.battery_capacity →
        r.battery_level < (r.charge rate).2.battery_level) ∧
      (r.battery_level = r.battery_capacity →
        (r.charge rate).2.battery_level = r.battery_capacity)) := by
  refine ⟨fun r h => (reachable_battery_bounds h).2, ?_, ?_⟩
  · intro r dx dy hsucc
    have hb : 0 < r.battery_level := by
      by_contra hb
      rw [move_fail r dx dy (not_lt.mp hb)] at hsucc
      exact absurd hsucc (by simp)
    refine ⟨move_battery_le r dx dy hb.le, fun hne => ?_⟩
    have hpos : 0 < dx ^ 2 + dy ^ 2 := by
      rcases not_and_or.mp hne with h | h
      · have := pow_two_pos_of_ne_zero h
        nlinarith [sq_nonneg dy]
      · have := pow_two_pos_of_ne_zero h
        nlinarith [sq_nonneg dx]
    have hs : 0 < Real.sqrt (dx ^ 2 + dy ^ 2) := Real.sqrt_pos.mpr hpos
    rw [move_succ r dx dy hb]
    simp only
    exact max_lt hb (by nlinarith)
  · intro r rate hrate
    constructor
    · intro hlt
      rw [charge_battery]
      exact lt_min hlt (by linarith)
    · intro heq
      rw [charge_battery, heq, min_eq_left (by linarith)]

/-- Witness for `battery_dynamics`: a freshly initialized robot is reachable
and within bounds; its (3, 4) move succeeds and strictly drains the battery;
a drained robot below capacity strictly gains from a rate-10 charge. -/
theorem battery_dynamics_witness :
    (Reachable (RobotVacuum.init ⟨0, 0⟩ 100) ∧
      0 ≤ (RobotVacuum.init ⟨0, 0⟩ 100).battery_level ∧
      (RobotVacuum.init ⟨0, 0⟩ 100).battery_level ≤
        (RobotVacuum.init ⟨0, 0⟩ 100).battery_capacity) ∧
    (((RobotVacuum.init ⟨0, 0⟩ 100).move 3 4).1 = true ∧
      ((RobotVacuum.init ⟨0, 0⟩ 100).move 3 4).2.battery_level <
        (RobotVacuum.init ⟨0, 0⟩ 100).battery_level) ∧
    (({ RobotVacuum.init ⟨0, 0⟩ 100 with battery_level := 50 } :
        RobotVacuum).battery_level <
      ({ RobotVacuum.init ⟨0, 0⟩ 100 with battery_level := 50 } :
        RobotVacuum).battery_capacity ∧
      ({ RobotVacuum.init ⟨0, 0⟩ 100 with battery_level := 50 } :
          RobotVacuum).battery_level <
        (({ RobotVacuum.init ⟨0, 0⟩ 100 with battery_level := 50 } :
            RobotVacuum).charge 10).2.battery_level) := by
  have hreach : Reachable (RobotVacuum.init ⟨0, 0⟩ 100) :=
    Reachable.init _ 100 (by norm_num)
  have hb : 0 < (RobotVacuum.init ⟨0, 0⟩ 100).battery_level := by
    norm_num [RobotVacuum.init]
  have hsucc : ((RobotVacuum.init ⟨0, 0⟩ 100).move 3 4).1 = true := by
    rw [move_succ _ 3 4 hb]
  have hne : ¬((3 : ℝ) = 0 ∧ (4 : ℝ) = 0) := by norm_num
  have hlt : ({ RobotVacuum.init ⟨0, 0⟩ 100 with battery_level := 50 } :
      RobotVacuum).battery_level <
      ({ RobotVacuum.init ⟨0, 0⟩ 100 with battery_level := 50 } :
        RobotVacuum).battery_capacity := by
    norm_num [RobotVacuum.init]
  exact ⟨⟨hreach, battery_dynamics.1 _ hreach⟩,
    ⟨hsucc, (battery_dynamics.2.1 _ 3 4 hsucc).2 hne⟩,
    ⟨hlt, (battery_dynamics.2.2 _ 10 (by norm_num)).1 hlt⟩⟩

/-- C2 counterexample: a zero-displacement move from a reachable state
succeeds but leaves the battery unchanged, and a rate-0 charge from a
reachable state strictly below capacity leaves the battery unchanged; so
neither "strictly decreasing on successful move" nor "strictly increasing on
charge" holds unconditionally. -/
theorem battery_strict_counterexample :
    (Reachable (RobotVacuum.init ⟨0, 0⟩ 100) ∧
      ((RobotVacuum.init ⟨0, 0⟩ 100).move 0 0).1 = true ∧
      ((RobotVacuum.init ⟨0, 0⟩ 100).move 0 0).2.battery_level =
        (RobotVacuum.init ⟨0, 0⟩ 100).battery_level) ∧
    (Reachable ((RobotVacuum.init ⟨0, 0⟩ 100).move 300 400).2 ∧
      ((RobotVacuum.init ⟨0, 0⟩ 100).move 300 400).2.battery_level <
        ((RobotVacuum.init ⟨0, 0⟩ 100).move 300 400).2.battery_capacity ∧
      (((RobotVacuum.init ⟨0, 0⟩ 100).move 300 400).2.charge 0).2.battery_level =
        ((RobotVacuum.init ⟨0, 0⟩ 100).move 300 400).2.battery_level) := by
  have hreach : Reachable (RobotVacuum.init ⟨0, 0⟩ 100) :=
    Reachable.init _ 100 (by norm_num)
  have hb : 0 < (RobotVacuum.init ⟨0, 0⟩ 100).battery_level := by
    norm_num [RobotVacuum.init]
  have hsqrt0 : Real.sqrt ((0 : ℝ) ^ 2 + 0 ^ 2) = 0 := by
    norm_num [Real.sqrt_zero]
  have hsqrt : Real.sqrt ((300 : ℝ) ^ 2 + 400 ^ 2) = 500 := by
    rw [show ((300 : ℝ) ^ 2 + 400 ^ 2) = 500 ^ 2 by norm_num]
    exact Real.sqrt_sq (by norm_num)
  have hbat : ((RobotVacuum.init ⟨0, 0⟩ 100).move 300 400).2.battery_level = 50 := by
    rw [move_succ _ 300 400 hb]
    simp only [hsqrt, RobotVacuum.init]
    norm_num
  have hcap : ((RobotVacuum.init ⟨0, 0⟩ 100).move 300 400).2.battery_capacity = 100 := by
    rw [move_capacity]
    norm_num [RobotVacuum.init]
  refine ⟨⟨hreach, (move_succ _ 0 0 hb) ▸ rfl, ?_⟩,
    ⟨Reachable.move _ 300 400 hreach, ?_, ?_⟩⟩
  · rw [move_succ _ 0 0 hb]
    simp only [hsqrt0, RobotVacuum.init]
    norm_num
  · rw [hbat, hcap]; norm_num
  · rw [charge_battery, hbat, hcap]; norm_num

/-- C6: `should_return_to_dock` holds exactly when the battery is below 20,
or the dock is known and the battery is below
1.5 · 0.1 · (Euclidean distance to the dock) + 10. -/
theorem should_return_to_dock_iff (r : RobotVacuum) :
    r.should_return_to_dock ↔
      (r.battery_level < 20 ∨
        ∃ dock, r.dock_position = some dock ∧
          r.battery_level <
            1.5 * 0.1 *
              Real.sqrt ((r.position.x - dock.x) ^ 2 + (r.position.y - dock.y) ^ 2) +
              10) := by
  rcases h : r.dock_position with _ | dock
  · simp [RobotVacuum.should_return_to_dock, h]
  · simp only [RobotVacuum.should_return_to_dock, h, Position.distance_to,
      Option.some.injEq]
    constructor
    · rintro (hb | hd)
      · exact Or.inl hb
      · exact Or.inr ⟨dock, rfl, by linarith⟩
    · rintro (hb | ⟨d, rfl, hd⟩)
      · exact Or.inl hb
      · exact Or.inr (by linarith)

/-- C7 (amended): each `charge` call sets the battery to
`min capacity (battery + rate)`, returns true exactly when the battery is at
capacity after the call, and increments `battery_cycles` on *every* call that
ends at capacity — including repeated calls while already full. -/
theorem charge_contract (r : RobotVacuum) (rate : ℝ) :
    (r.charge rate).2.battery_level = min r.battery_capacity (r.battery_level + rate) ∧
    ((r.charge rate).1 = true ↔
      (r.charge rate).2.battery_level = r.battery_capacity) ∧
    (r.charge rate).2.stats.battery_cycles =
      (if r.battery_capacity ≤ r.battery_level + rate then r.stats.battery_cycles + 1
       else r.stats.battery_cycles) := by
  rcases le_or_lt r.battery_capacity (r.battery_level + rate) with h | h
  · rw [charge_full r rate h]
    exact ⟨(min_eq_left h).symm, by simp, by rw [if_pos h]⟩
  · rw [charge_below_cap r rate h]
    exact ⟨(min_eq_right h.le).symm, by simp [ne_of_lt h], by rw [if_neg (not_le.mpr h)]⟩

/-- C7 counterexample: on a robot already at capacity, two consecutive
`charge` calls each increment `battery_cycles` (1 then 2), contradicting the
claim that the counter is bumped only when capacity is first reached in a
charging episode. -/
theorem charge_cycles_counterexample :
    ((RobotVacuum.init ⟨0, 0⟩ 100).charge 10).1 = true ∧
    ((RobotVacuum.init ⟨0, 0⟩ 100).charge 10).2.stats.battery_cycles = 1 ∧
    ((((RobotVacuum.init ⟨0, 0⟩ 100).charge 10).2).charge 10).2.stats.battery_cycles
      = 2 := by
  have h1 : (RobotVacuum.init ⟨0, 0⟩ 100).battery_capacity ≤
      (RobotVacuum.init ⟨0, 0⟩ 100).battery_level + 10 := by
    norm_num [RobotVacuum.init]
  rw [charge_full _ 10 h1]
  have h2 : ∀ s : RobotVacuum, s.battery_capacity = 100 → s.battery_level = 100 →
      s.battery_capacity ≤ s.battery_level + 10 := by
    intro s hc hb; rw [hc, hb]; norm_num
  refine ⟨rfl, ?_, ?_⟩
  · simp [RobotVacuum.init, RobotStats.initial]
  · rw [charge_full _ 10 (h2 _ rfl rfl)]
    simp [RobotVacuum.init, RobotStats.initial]

/-! ## Embedding of `pathplanning.py`: grids and the zigzag planner -/

/-- A rectangular environment array: `cells r c` is `environment[r, c]`,
row index first as in numpy, so the cell at coordinates (x, y) is
`cells y x`. -/
structure Grid where
  height : ℕ
  width : ℕ
  cells : ℕ → ℕ → ℤ

/-- `PathPlanner.is_valid_position`: in bounds and free (0) or dock (3). -/
def is_valid_position (g : Grid) (x y : ℤ) : Bool :=
  decide (0 ≤ x) && decide (x < (g.width : ℤ)) &&
    decide (0 ≤ y) && decide (y < (g.height : ℤ)) &&
    (decide (g.cells y.toNat x.toNat = 0) || decide (g.cells y.toNat x.toNat = 3))

lemma is_valid_position_iff (g : Grid) (x y : ℤ) :
    is_valid_position g x y = true ↔
      0 ≤ x ∧ x < (g.width : ℤ) ∧ 0 ≤ y ∧ y < (g.height : ℤ) ∧
        (g.cells y.toNat x.toNat = 0 ∨ g.cells y.toNat x.toNat = 3) := by
  simp [is_valid_position, and_assoc]

/-- One row of the horizontal zigzag sweep: even rows scan left-to-right,
odd rows right-to-left, keeping only traversable cells. -/
def zigzag_row (g : Grid) (y : ℕ) : List (ℤ × ℤ) :=
  let xs := if y % 2 = 0 then List.range g.width else (List.range g.width).reverse
  xs.filterMap fun x : ℕ =>
    if is_valid_position g (x : ℤ) (y : ℤ) then some ((x : ℤ), (y : ℤ)) else none

/-- One column of the vertical zigzag sweep: even columns top-to-bottom,
odd columns bottom-to-top. -/
def zigzag_col (g : Grid) (x : ℕ) : List (ℤ × ℤ) :=
  let ys := if x % 2 = 0 then List.range g.height else (List.range g.height).reverse
  ys.filterMap fun y : ℕ =>
    if is_valid_position g (x : ℤ) (y : ℤ) then some ((x : ℤ), (y : ℤ)) else none

/-- `ZigzagCoveragePlanner.generate_zigzag_path`.  The `start` argument is
accepted but, as in the source, never used. -/
def generate_zigzag_path (g : Grid) (start : ℤ × ℤ) (horizontal : Bool) :
    List (ℤ × ℤ) :=
  match horizontal with
  | true => (List.range g.height).flatMap fun y => zigzag_row g y
  | false => (List.range g.width).flatMap fun x => zigzag_col g x

/-- Serpentine (boustrophedon) order on cells: earlier row first; within a
row, even rows increase in x and odd rows decrease. -/
def serpentineBefore (p q : ℤ × ℤ) : Prop :=
  p.2 < q.2 ∨ (p.2 = q.2 ∧ ((p.2 % 2 = 0 ∧ p.1 < q.1) ∨ (p.2 % 2 ≠ 0 ∧ q.1 < p.1)))

/-- Transposed grid: swaps the roles of rows and columns. -/
def Grid.transpose (g : Grid) : Grid :=
  ⟨g.width, g.height, fun r c => g.cells c r⟩

lemma is_valid_position_transpose (g : Grid) (x y : ℤ) :
    is_valid_position g.transpose x y = is_valid_position g y x := by
  rw [Bool.eq_iff_iff, is_valid_position_iff, is_valid_position_iff]
  simp only [Grid.transpose]
  tauto

lemma mem_filterMap_zig (g : Grid) (y : ℕ) (xs : List ℕ) (p : ℤ × ℤ) :
    (p ∈ xs.filterMap fun x : ℕ =>
        if is_valid_position g (x : ℤ) (y : ℤ) then some ((x : ℤ), (y : ℤ))
        else none) ↔
      ∃ x ∈ xs, p = ((x : ℤ), (y : ℤ)) ∧ is_valid_position g (x : ℤ) (y : ℤ) = true := by
  rw [List.mem_filterMap]
  constructor
  · rintro ⟨x, hx, hsome⟩
    by_cases hv : is_valid_position g (x : ℤ) (y : ℤ) = true
    · rw [if_pos hv] at hsome
      exact ⟨x, hx, (Option.some.inj hsome).symm, hv⟩
    · rw [if_neg hv] at hsome
      cases hsome
  · rintro ⟨x, hx, rfl, hv⟩
    exact ⟨x, hx, by rw [if_pos hv]⟩

lemma mem_zigzag_row (g : Grid) (y : ℕ) (p : ℤ × ℤ) :
    p ∈ zigzag_row g y ↔ p.2 = (y : ℤ) ∧ is_valid_position g p.1 p.2 = true := by
  obtain ⟨a, b⟩ := p
  simp only [zigzag_row, mem_filterMap_zig]
  constructor
  · rintro ⟨x, hx, heq, hv⟩
    obtain ⟨rfl, rfl⟩ := Prod.mk.inj heq
    exact ⟨rfl, hv⟩
  · rintro ⟨hb, hv⟩
    obtain rfl : b = (y : ℤ) := hb
    obtain ⟨hx0, hxw, _, _, _⟩ := (is_valid_position_iff g a (y : ℤ)).mp hv
    have hnat : ((a.toNat : ℕ) : ℤ) = a := by omega
    refine ⟨a.toNat, ?_, ?_, ?_⟩
    · split <;> simp only [List.mem_reverse, List.mem_range] <;> omega
    · rw [hnat]
    · rw [hnat]; exact hv

lemma mem_zigzag_horizontal (g : Grid) (start : ℤ × ℤ) (p : ℤ × ℤ) :
    p ∈ generate_zigzag_path g start true ↔ is_valid_position g p.1 p.2 = true := by
  simp only [generate_zigzag_path, List.mem_flatMap, List.mem_range]
  constructor
  · rintro ⟨y, _, hp⟩
    exact ((mem_zigzag_row g y p).mp hp).2
  · intro hv
    have hb := (is_valid_position_iff g p.1 p.2).mp hv
    obtain ⟨_, _, hy0, hyh, _⟩ := hb
    exact ⟨p.2.toNat, by omega, (mem_zigzag_row g p.2.toNat p).mpr ⟨by omega, hv⟩⟩

lemma mem_zig_opt {g : Grid} {y x : ℕ} {p : ℤ × ℤ}
    (h : p ∈ (if is_valid_position g (x : ℤ) (y : ℤ) then some ((x : ℤ), (y : ℤ))
      else none)) :
    p = ((x : ℤ), (y : ℤ)) := by
  rcases ite_eq_or_eq (is_valid_position g (x : ℤ) (y : ℤ) = true)
      (some ((x : ℤ), (y : ℤ))) (none : Option (ℤ × ℤ)) with he | he <;>
    rw [he] at h
  · exact (Option.mem_some_iff.mp h).symm
  · cases h

lemma serpentineBefore_ne {p q : ℤ × ℤ} (h : serpentineBefore p q) : p ≠ q := by
  intro heq
  subst heq
  rcases h with h | ⟨_, h | h⟩ <;> omega

lemma pairwise_zigzag_row (g : Grid) (y : ℕ) :
    (zigzag_row g y).Pairwise serpentineBefore := by
  rw [zigzag_row]
  by_cases hy : y % 2 = 0
  · rw [if_pos hy, List.pairwise_filterMap]
    refine (List.pairwise_lt_range g.width).imp ?_
    intro a b hab p hp q hq
    obtain rfl := mem_zig_opt hp
    obtain rfl := mem_zig_opt hq
    exact Or.inr ⟨rfl, Or.inl ⟨by omega, by omega⟩⟩
  · rw [if_neg hy, List.pairwise_filterMap, List.pairwise_reverse]
    refine (List.pairwise_lt_range g.width).imp ?_
    intro a b hab p hp q hq
    obtain rfl := mem_zig_opt hp
    obtain rfl := mem_zig_opt hq
    exact Or.inr ⟨rfl, Or.inr ⟨by omega, by omega⟩⟩

lemma pairwise_zigzag_horizontal (g : Grid) (start : ℤ × ℤ) :
    (generate_zigzag_path g start true).Pairwise serpentineBefore := by
  simp only [generate_zigzag_path]
  rw [List.pairwise_flatMap]
  refine ⟨fun y _ => pairwise_zigzag_row g y, ?_⟩
  refine (List.pairwise_lt_range g.height).imp ?_
  intro y1 y2 h12 p hp q hq
  have h1 := ((mem_zigzag_row g y1 p).mp hp).1
  have h2 := ((mem_zigzag_row g y2 q).mp hq).1
  exact Or.inl (by omega)

lemma zigzag_col_eq_row_transpose (g : Grid) (x : ℕ) :
    zigzag_col g x = (zigzag_row g.transpose x).map Prod.swap := by
  have hw : g.transpose.width = g.height := rfl
  simp only [zigzag_col, zigzag_row, hw, List.map_filterMap]
  congr 1
  funext y
  rw [is_valid_position_transpose]
  split <;> rfl

lemma zigzag_vertical_transpose (g : Grid) (start : ℤ × ℤ) :
    generate_zigzag_path g start false =
      (generate_zigzag_path g.transpose start.swap true).map Prod.swap := by
  simp only [generate_zigzag_path, List.map_flatMap]
  exact List.flatMap_congr fun x _ => zigzag_col_eq_row_transpose g x

/-- C4: for every grid and start cell, the zigzag path visits, as a set,
exactly the traversable cells (free or dock), each exactly once; the
horizontal path is strictly ordered by the serpentine order — rows in
increasing order, even rows scanned left-to-right and odd rows
right-to-left — and the vertical mode is the transpose (coordinates
swapped).  In particular over an empty room it visits exactly the set of
free cells. -/
theorem zigzag_coverage (g : Grid) (start : ℤ × ℤ) :
    (∀ (horizontal : Bool) (p : ℤ × ℤ),
      p ∈ generate_zigzag_path g start horizontal ↔
        is_valid_position g p.1 p.2 = true) ∧
    (∀ horizontal : Bool, (generate_zigzag_path g start horizontal).Nodup) ∧
    (generate_zigzag_path g start true).Pairwise serpentineBefore ∧
    generate_zigzag_path g start false =
      (generate_zigzag_path g.transpose start.swap true).map Prod.swap := by
  have hmem : ∀ p : ℤ × ℤ,
      p ∈ generate_zigzag_path g start false ↔
        is_valid_position g p.1 p.2 = true := by
    intro p
    rw [zigzag_vertical_transpose, List.mem_map]
    constructor
    · rintro ⟨q, hq, rfl⟩
      have := (mem_zigzag_horizontal g.transpose start.swap q).mp hq
      rwa [is_valid_position_transpose] at this
    · intro hv
      refine ⟨p.swap, ?_, Prod.swap_swap p⟩
      rw [mem_zigzag_horizontal, Prod.fst_swap, Prod.snd_swap,
        is_valid_position_transpose]
      exact hv
  have hnodupT : (generate_zigzag_path g start true).Nodup :=
    (pairwise_zigzag_horizontal g start).imp serpentineBefore_ne
  refine ⟨?_, ?_, pairwise_zigzag_horizontal g start,
    zigzag_vertical_transpose g start⟩
  · intro horizontal p
    cases horizontal
    · exact hmem p
    · exact mem_zigzag_horizontal g start p
  · intro horizontal
    cases horizontal
    · rw [zigzag_vertical_transpose]
      exact ((pairwise_zigzag_horizontal g.transpose start.swap).imp
        serpentineBefore_ne).map _ (fun a b => fun hne heq => hne (by
          have := congrArg Prod.swap heq
          rwa [Prod.swap_swap, Prod.swap_swap] at this))
    · exact hnodupT

/-- C10: `generate_zigzag_path` ignores its `start` argument — any two start
cells give identical paths for the same grid and orientation — and the
returned path need not contain the robot's start cell (on a 1×1 free grid
with start (5, 5) the path is just [(0, 0)]). -/
theorem zigzag_ignores_start :
    (∀ (g : Grid) (s1 s2 : ℤ × ℤ) (horizontal : Bool),
      generate_zigzag_path g s1 horizontal = generate_zigzag_path g s2 horizontal) ∧
    ((5, 5) : ℤ × ℤ) ∉ generate_zigzag_path ⟨1, 1, fun _ _ => 0⟩ (5, 5) true := by
  refine ⟨fun g s1 s2 horizontal => rfl, ?_⟩
  decide

/-! ## Embedding of `pathplanning.py`: the spiral planner -/

/-- Loop state of `SpiralCoveragePlanner.generate_spiral_path`: current
position, direction, and the leg-length bookkeeping variables. -/
structure SpiralState where
  x : ℤ
  y : ℤ
  dx : ℤ
  dy : ℤ
  steps_in_direction : ℕ
  steps_taken : ℕ
  direction_changes : ℕ
deriving DecidableEq

/-- Loop state on entry: at the start cell, moving right, leg length 1. -/
def spiralInit (start : ℤ × ℤ) : SpiralState :=
  ⟨start.1, start.2, 1, 0, 1, 0, 0⟩

/-- One iteration of the spiral loop body on the bookkeeping state: advance
the position, count the step, and on completing a leg rotate
(dx, dy) ↦ (−dy, dx) and lengthen the leg every second turn. -/
def spiralAdvance (s : SpiralState) : SpiralState :=
  if s.steps_taken + 1 = s.steps_in_direction then
    { x := s.x + s.dx
      y := s.y + s.dy
      dx := -s.dy
      dy := s.dx
      steps_in_direction :=
        if (s.direction_changes + 1) % 2 = 0 then s.steps_in_direction + 1
        else s.steps_in_direction
      steps_taken := 0
      direction_changes := s.direction_changes + 1 }
  else
    { s with
      x := s.x + s.dx
      y := s.y + s.dy
      steps_taken := s.steps_taken + 1 }

/-- The loop's break test `abs(x − sx) > R and abs(y − sy) > R`. -/
def bothExceed (start : ℤ × ℤ) (R : ℕ) (p : ℤ × ℤ) : Bool :=
  decide ((R : ℤ) < |p.1 - start.1|) && decide ((R : ℤ) < |p.2 - start.2|)

/-- Append the advanced position to the path when it is traversable. -/
def spiralEmit (g : Grid) (path : List (ℤ × ℤ)) (s : SpiralState) :
    List (ℤ × ℤ) :=
  if is_valid_position g s.x s.y then path ++ [(s.x, s.y)] else path

/-- The `for _ in range(max_radius * max_radius)` loop of
`generate_spiral_path`, also returning the final loop state. -/
def spiralLoop (g : Grid) (start : ℤ × ℤ) (R : ℕ) :
    ℕ → SpiralState → List (ℤ × ℤ) → List (ℤ × ℤ) × SpiralState
  | 0, s, path => (path, s)
  | n + 1, s, path =>
    if bothExceed start R ((spiralAdvance s).x, (spiralAdvance s).y) then
      (spiralEmit g path (spiralAdvance s), spiralAdvance s)
    else
      spiralLoop g start R n (spiralAdvance s) (spiralEmit g path (spiralAdvance s))

/-- `SpiralCoveragePlanner.generate_spiral_path`; `max_radius = none` is the
Python `None` default, replaced by `max(W, H)`. -/
def generate_spiral_path (g : Grid) (start : ℤ × ℤ) (max_radius : Option ℕ) :
    List (ℤ × ℤ) :=
  let R := max_radius.getD (max g.width g.height)
  (spiralLoop g start R (R * R) (spiralInit start) [start]).1

/-- Abstract spiral state after `n` steps, independent of any grid. -/
def spiralStateAt (start : ℤ × ℤ) (n : ℕ) : SpiralState :=
  spiralAdvance^[n] (spiralInit start)

/-- Abstract spiral position after `n` steps. -/
def spiralPos (start : ℤ × ℤ) (n : ℕ) : ℤ × ℤ :=
  ((spiralStateAt start n).x, (spiralStateAt start n).y)

/-- First step index in (m, m+n] whose abstract position triggers the break
test, or m+n if none does. -/
def spiralStopFrom (start : ℤ × ℤ) (R : ℕ) : ℕ → ℕ → ℕ
  | m, 0 => m
  | m, n + 1 =>
    if bothExceed start R (spiralPos start (m + 1)) then m + 1
    else spiralStopFrom start R (m + 1) n

/-- The step at which the spiral loop stops: the first break-triggering step
within the `R²` iteration budget, else `R²`. -/
def spiralStopStep (start : ℤ × ℤ) (R : ℕ) : ℕ :=
  spiralStopFrom start R 0 (R * R)

/-- Length of the j-th spiral leg: 1, 1, 2, 2, 3, 3, … -/
def legLen (j : ℕ) : ℕ := j / 2 + 1

/-- Step index at which the j-th leg begins. -/
def legStart : ℕ → ℕ
  | 0 => 0
  | j + 1 => legStart j + legLen j

/-- Direction of the j-th leg: right, down, left, up, cyclically. -/
def dirVec (j : ℕ) : ℤ × ℤ :=
  match j % 4 with
  | 0 => (1, 0)
  | 1 => (0, 1)
  | 2 => (-1, 0)
  | _ => (0, -1)

lemma spiralStateAt_succ (start : ℤ × ℤ) (n : ℕ) :
    spiralStateAt start (n + 1) = spiralAdvance (spiralStateAt start n) := by
  rw [spiralStateAt, spiralStateAt, Function.iterate_succ_apply']

lemma spiralPos_succ (start : ℤ × ℤ) (n : ℕ) :
    spiralPos start (n + 1) =
      ((spiralPos start n).1 + (spiralStateAt start n).dx,
       (spiralPos start n).2 + (spiralStateAt start n).dy) := by
  rw [spiralPos, spiralPos, spiralStateAt_succ, spiralAdvance]
  split <;> rfl

lemma spiralStopFrom_ge (start : ℤ × ℤ) (R : ℕ) :
    ∀ n m, m ≤ spiralStopFrom start R m n := by
  intro n
  induction n with
  | zero => intro m; rw [spiralStopFrom]
  | succ n ih =>
    intro m
    rw [spiralStopFrom]
    split
    · omega
    · exact le_trans (by omega) (ih (m + 1))

lemma spiralStopFrom_le (start : ℤ × ℤ) (R : ℕ) :
    ∀ n m, spiralStopFrom start R m n ≤ m + n := by
  intro n
  induction n with
  | zero => intro m; rw [spiralStopFrom]; omega
  | succ n ih =>
    intro m
    rw [spiralStopFrom]
    split
    · omega
    · exact le_trans (ih (m + 1)) (by omega)

lemma spiralStopFrom_not_exceed (start : ℤ × ℤ) (R : ℕ) :
    ∀ n m t, m < t → t < spiralStopFrom start R m n →
      bothExceed start R (spiralPos start t) = false := by
  intro n
  induction n with
  | zero =>
    intro m t hmt hts
    rw [spiralStopFrom] at hts
    omega
  | succ n ih =>
    intro m t hmt hts
    rw [spiralStopFrom] at hts
    split at hts
    · omega
    · rcases Nat.lt_or_ge (m + 1) t with h | h
      · exact ih (m + 1) t h hts
      · have ht : t = m + 1 := by omega
        subst ht
        simpa using Bool.of_not_eq_true (by assumption)

lemma spiralStopFrom_last (start : ℤ × ℤ) (R : ℕ) :
    ∀ n m, bothExceed start R (spiralPos start (spiralStopFrom start R m n)) = true ∨
      spiralStopFrom start R m n = m + n := by
  intro n
  induction n with
  | zero => intro m; right; rw [spiralStopFrom]; omega
  | succ n ih =>
    intro m
    rw [spiralStopFrom]
    split
    · left; assumption
    · rcases ih (m + 1) with h | h
      · exact Or.inl h
      · exact Or.inr (by omega)

lemma spiralLoop_eq (g : Grid) (start : ℤ × ℤ) (R : ℕ) :
    ∀ (n m : ℕ) (acc : List (ℤ × ℤ)),
      spiralLoop g start R n (spiralStateAt start m) acc =
        (acc ++ (((List.range' (m + 1) (spiralStopFrom start R m n - m)).map
            (spiralPos start)).filter fun p => is_valid_position g p.1 p.2),
          spiralStateAt start (spiralStopFrom start R m n)) := by
  intro n
  induction n with
  | zero =>
    intro m acc
    rw [spiralLoop, spiralStopFrom]
    simp
  | succ n ih =>
    intro m acc
    rw [spiralLoop, spiralStopFrom]
    have hadv : spiralAdvance (spiralStateAt start m) = spiralStateAt start (m + 1) :=
      (spiralStateAt_succ start m).symm
    have hpos : ((spiralAdvance (spiralStateAt start m)).x,
        (spiralAdvance (spiralStateAt start m)).y) = spiralPos start (m + 1) := by
      rw [hadv, spiralPos]
    have hemit : spiralEmit g acc (spiralAdvance (spiralStateAt start m)) =
        acc ++ (([spiralPos start (m + 1)]).filter
          fun p => is_valid_position g p.1 p.2) := by
      rw [spiralEmit, hadv]
      cases hv : is_valid_position g (spiralStateAt start (m + 1)).x
          (spiralStateAt start (m + 1)).y
      · simp [hv, List.filter_singleton, spiralPos]
      · simp [hv, List.filter_singleton, spiralPos]
    rw [hpos]
    split
    · rw [hemit, hadv]
      have hone : m + 1 - m = 1 := by omega
      rw [hone, List.range'_one]
      simp
    · rw [hemit, hadv, ih (m + 1)]
      have hge : m + 1 ≤ spiralStopFrom start R (m + 1) n :=
        spiralStopFrom_ge start R n (m + 1)
      have hrange : List.range' (m + 1) (spiralStopFrom start R (m + 1) n - m) =
          (m + 1) :: List.range' (m + 2) (spiralStopFrom start R (m + 1) n - (m + 1)) := by
        have hn : spiralStopFrom start R (m + 1) n - m =
            (spiralStopFrom start R (m + 1) n - (m + 1)) + 1 := by omega
        rw [hn, List.range'_succ]
      rw [hrange]
      simp only [List.map_cons, List.append_assoc, Prod.mk.injEq, and_true]
      rw [← List.filter_append, List.singleton_append]

lemma dirVec_rotate (j : ℕ) :
    dirVec (j + 1) = (-(dirVec j).2, (dirVec j).1) := by
  have h : j % 4 = 0 ∨ j % 4 = 1 ∨ j % 4 = 2 ∨ j % 4 = 3 := by omega
  have h1 : (j + 1) % 4 = (j % 4 + 1) % 4 := by omega
  rcases h with h | h | h | h <;> simp [dirVec, h1, h]

lemma spiral_leg_state (start : ℤ × ℤ) :
    ∀ j i, i < legLen j →
      (spiralStateAt start (legStart j + i)).dx = (dirVec j).1 ∧
      (spiralStateAt start (legStart j + i)).dy = (dirVec j).2 ∧
      (spiralStateAt start (legStart j + i)).steps_in_direction = legLen j ∧
      (spiralStateAt start (legStart j + i)).steps_taken = i ∧
      (spiralStateAt start (legStart j + i)).direction_changes = j := by
  intro j
  induction j with
  | zero =>
    intro i hi
    have h0 : i = 0 := by
      have : legLen 0 = 1 := rfl
      omega
    subst h0
    exact ⟨rfl, rfl, rfl, rfl, rfl⟩
  | succ j ihj =>
    have hL : 1 ≤ legLen j := by unfold legLen; omega
    obtain ⟨hdx, hdy, hsid, htk, hdc⟩ := ihj (legLen j - 1) (by omega)
    have hstep : legStart (j + 1) = legStart j + (legLen j - 1) + 1 := by
      rw [legStart]
      omega
    have hstart :
        (spiralStateAt start (legStart (j + 1))).dx = (dirVec (j + 1)).1 ∧
        (spiralStateAt start (legStart (j + 1))).dy = (dirVec (j + 1)).2 ∧
        (spiralStateAt start (legStart (j + 1))).steps_in_direction = legLen (j + 1) ∧
        (spiralStateAt start (legStart (j + 1))).steps_taken = 0 ∧
        (spiralStateAt start (legStart (j + 1))).direction_changes = j + 1 := by
      rw [hstep, spiralStateAt_succ, spiralAdvance, htk, hsid, hdx, hdy, hdc]
      rw [if_pos (by omega), dirVec_rotate j]
      refine ⟨rfl, rfl, ?_, rfl, rfl⟩
      show (if (j + 1) % 2 = 0 then legLen j + 1 else legLen j) = legLen (j + 1)
      split <;> (unfold legLen; omega)
    intro i
    induction i with
    | zero =>
      intro _
      simpa using hstart
    | succ i ihi =>
      intro hi
      obtain ⟨hdx2, hdy2, hsid2, htk2, hdc2⟩ := ihi (by omega)
      have hstep2 : legStart (j + 1) + (i + 1) = legStart (j + 1) + i + 1 := by omega
      rw [hstep2, spiralStateAt_succ, spiralAdvance, htk2, hsid2]
      rw [if_neg (by omega)]
      exact ⟨hdx2, hdy2, rfl, rfl, hdc2⟩

/-- C5 (amended): `generate_spiral_path` equals the start cell followed by
the traversable cells among the abstract spiral positions of steps 1..K,
where K is the first step whose position exceeds `max_radius` (default
max(W, H)) in both coordinate distances from the start, capped at
`max_radius²` iterations, the loop's budget — the loop may also terminate by
exhausting that budget; the abstract spiral steps right, down, left, up with
leg lengths 1, 1, 2, 2, 3, 3, …, advancing its index also through
non-traversable cells, which are merely skipped in the emitted path. -/
theorem spiral_characterization :
    (∀ (g : Grid) (start : ℤ × ℤ) (mr : Option ℕ),
      generate_spiral_path g start mr =
        start ::
          (((List.range' 1 (spiralStopStep start (mr.getD (max g.width g.height)))).map
              (spiralPos start)).filter fun p => is_valid_position g p.1 p.2)) ∧
    (∀ (start : ℤ × ℤ) (R : ℕ),
      spiralStopStep start R ≤ R * R ∧
      (∀ t, 1 ≤ t → t < spiralStopStep start R →
        bothExceed start R (spiralPos start t) = false) ∧
      (bothExceed start R (spiralPos start (spiralStopStep start R)) = true ∨
        spiralStopStep start R = R * R)) ∧
    (∀ (start : ℤ × ℤ) (j i : ℕ), i < legLen j →
      spiralPos start (legStart j + i + 1) =
        ((spiralPos start (legStart j + i)).1 + (dirVec j).1,
         (spiralPos start (legStart j + i)).2 + (dirVec j).2)) := by
  refine ⟨?_, ?_, ?_⟩
  · intro g start mr
    simp only [generate_spiral_path]
    rw [show spiralInit start = spiralStateAt start 0 from rfl, spiralLoop_eq]
    simp [spiralStopStep]
  · intro start R
    rw [spiralStopStep]
    refine ⟨by have := spiralStopFrom_le start R (R * R) 0; omega, ?_, ?_⟩
    · intro t h1 h2
      exact spiralStopFrom_not_exceed start R (R * R) 0 t (by omega) h2
    · rcases spiralStopFrom_last start R (R * R) 0 with h | h
      · exact Or.inl h
      · exact Or.inr (by omega)
  · intro start j i hi
    obtain ⟨hdx, hdy, _, _, _⟩ := spiral_leg_state start j i hi
    rw [spiralPos_succ, hdx, hdy]

/-- Witness for `spiral_characterization`: with start (0, 0) and radius 2,
step 1 lies strictly before the stopping step and does not trigger the break
test; and on leg 3 (the first upward leg) step 2 moves by (0, −1). -/
theorem spiral_characterization_witness :
    ((1 : ℕ) ≤ 1 ∧ 1 < spiralStopStep (0, 0) 2 ∧
      bothExceed (0, 0) 2 (spiralPos (0, 0) 1) = false) ∧
    (1 < legLen 3 ∧
      spiralPos (0, 0) (legStart 3 + 1 + 1) =
        ((spiralPos (0, 0) (legStart 3 + 1)).1 + (dirVec 3).1,
         (spiralPos (0, 0) (legStart 3 + 1)).2 + (dirVec 3).2)) := by
  refine ⟨⟨le_rfl, ?_, ?_⟩, ?_, ?_⟩
  · decide
  · exact (spiral_characterization.2.1 (0, 0) 2).2.1 1 le_rfl (by decide)
  · decide
  · exact spiral_characterization.2.2 (0, 0) 3 1 (by decide)

/-- C5 counterexample: on a 1×1 free grid with the default radius
(max(W, H) = 1) the loop exhausts its single iteration and returns with the
abstract spiral position at (1, 0), which does not satisfy the claimed
termination condition |dx| > max_radius ∧ |dy| > max_radius; so the
generator does not terminate exactly when both distances exceed the
radius. -/
theorem spiral_termination_counterexample :
    generate_spiral_path ⟨1, 1, fun _ _ => 0⟩ (0, 0) none = [(0, 0)] ∧
    (spiralLoop ⟨1, 1, fun _ _ => 0⟩ (0, 0) 1 (1 * 1) (spiralInit (0, 0))
        [(0, 0)]).2 = spiralStateAt (0, 0) 1 ∧
    spiralPos (0, 0) 1 = (1, 0) ∧
    bothExceed (0, 0) 1 (spiralPos (0, 0) 1) = false := by
  refine ⟨?_, ?_, ?_, ?_⟩ <;> decide

/-! ## Embedding of `pathplanning.py`: the A* planner -/

/-- A node of the A* search (`PathPlanNode`): position, costs, and the
parent chain rendered as the list of ancestor positions, nearest first (a
pure encoding of the mutable parent pointers). -/
structure AStarNode where
  position : ℤ × ℤ
  g_cost : ℚ
  h_cost : ℚ
  trail : List (ℤ × ℤ)
deriving DecidableEq

/-- `f = g + h`. -/
def f_cost (n : AStarNode) : ℚ := n.g_cost + n.h_cost

/-- Manhattan-distance heuristic. -/
def heuristic (p q : ℤ × ℤ) : ℚ := ((|p.1 - q.1| + |p.2 - q.2| : ℤ) : ℚ)

/-- `PathPlanner.get_neighbors`: valid cardinal neighbors, then (when
`diagonal`) valid diagonal neighbors whose two orthogonal neighbors are also
traversable (no corner cutting). -/
def get_neighbors (g : Grid) (x y : ℤ) (diagonal : Bool) : List (ℤ × ℤ) :=
  (([(0, 1), (1, 0), (0, -1), (-1, 0)] : List (ℤ × ℤ)).filterMap fun d =>
    if is_valid_position g (x + d.1) (y + d.2) then some (x + d.1, y + d.2)
    else none) ++
  (if diagonal then
    ([(1, 1), (1, -1), (-1, 1), (-1, -1)] : List (ℤ × ℤ)).filterMap fun d =>
      if is_valid_position g (x + d.1) (y + d.2) &&
          (is_valid_position g (x + d.1) y && is_valid_position g x (y + d.2)) then
        some (x + d.1, y + d.2)
      else none
  else [])

/-- Pop the open-set entry with minimal f-cost (the `heapq` pop; ties go to
the earlier entry). -/
def popMin : List AStarNode → Option (AStarNode × List AStarNode)
  | [] => none
  | n :: rest =>
    match popMin rest with
    | none => some (n, [])
    | some (m, r') => if f_cost n ≤ f_cost m then some (n, rest) else some (m, n :: r')

/-- Path reconstruction: walk the parent chain and reverse. -/
def reconstruct (n : AStarNode) : List (ℤ × ℤ) := (n.position :: n.trail).reverse

/-- Relaxation of one neighbor: compute the tentative g-cost, consult and
update the g-score association list (newest entry first, modelling
`node_map`), and push the neighbor node onto the open set. -/
def processNeighbor (goal : ℤ × ℤ) (cur : AStarNode)
    (acc : List AStarNode × List ((ℤ × ℤ) × ℚ)) (npos : ℤ × ℤ) :
    List AStarNode × List ((ℤ × ℤ) × ℚ) :=
  let move_cost : ℚ :=
    if npos.1 = cur.position.1 ∨ npos.2 = cur.position.2 then 1 else 1414 / 1000
  let gc := cur.g_cost + move_cost
  match List.lookup npos acc.2 with
  | some gOld =>
    if gc < gOld then
      (⟨npos, gc, heuristic npos goal, cur.position :: cur.trail⟩ :: acc.1,
        (npos, gc) :: acc.2)
    else acc
  | none =>
    (⟨npos, gc, heuristic npos goal, cur.position :: cur.trail⟩ :: acc.1,
      (npos, gc) :: acc.2)

/-- The `while open_set` loop of `find_path`, with an iteration budget; the
budget chosen by `find_path` is immaterial to the verified claims, which
hold for budget exhaustion as well. -/
def astarLoop (gr : Grid) (goal : ℤ × ℤ) (diagonal : Bool) :
    ℕ → List AStarNode → List (ℤ × ℤ) → List ((ℤ × ℤ) × ℚ) →
      Option (List (ℤ × ℤ))
  | 0, _, _, _ => none
  | fuel + 1, open_set, closed_set, node_g =>
    match popMin open_set with
    | none => none
    | some (cur, rest) =>
      if cur.position = goal then some (reconstruct cur)
      else
        let closed' := cur.position :: closed_set
        let acc := ((get_neighbors gr cur.position.1 cur.position.2 diagonal).filter
          fun p => decide (p ∉ closed')).foldl (processNeighbor goal cur) (rest, node_g)
        astarLoop gr goal diagonal fuel acc.1 closed' acc.2

/-- `AStarPlanner.find_path`. -/
def find_path (gr : Grid) (start goal : ℤ × ℤ) (diagonal : Bool) :
    Option (List (ℤ × ℤ)) :=
  if is_valid_position gr start.1 start.2 && is_valid_position gr goal.1 goal.2 then
    astarLoop gr goal diagonal ((gr.width * gr.height + 1) ^ 2)
      [⟨start, 0, heuristic start goal, []⟩] [] [(start, 0)]
  else none

/-- One traversable A* step: `q` is among the neighbors of `p`. -/
def AStarStep (gr : Grid) (diagonal : Bool) (p q : ℤ × ℤ) : Prop :=
  q ∈ get_neighbors gr p.1 p.2 diagonal

/-- Connectivity of two cells by a sequence of traversable steps. -/
def Connected (gr : Grid) (diagonal : Bool) (s t : ℤ × ℤ) : Prop :=
  Relation.ReflTransGen (AStarStep gr diagonal) s t

/-- A node trail is a backward step chain from the node's position to
`s`. -/
def TrailFrom (gr : Grid) (diagonal : Bool) (s : ℤ × ℤ) :
    (ℤ × ℤ) → List (ℤ × ℤ) → Prop
  | pos, [] => pos = s
  | pos, q :: rest => AStarStep gr diagonal q pos ∧ TrailFrom gr diagonal s q rest

lemma trailFrom_connected {gr : Grid} {diagonal : Bool} {s : ℤ × ℤ} :
    ∀ {trail : List (ℤ × ℤ)} {pos : ℤ × ℤ},
      TrailFrom gr diagonal s pos trail → Connected gr diagonal s pos := by
  intro trail
  induction trail with
  | nil =>
    intro pos h
    obtain rfl : pos = s := h
    exact Relation.ReflTransGen.refl
  | cons q rest ih =>
    intro pos h
    obtain ⟨hstep, htr⟩ := h
    exact Relation.ReflTransGen.tail (ih htr) hstep

lemma popMin_subset :
    ∀ (l : List AStarNode) (n : AStarNode) (rest : List AStarNode),
      popMin l = some (n, rest) → n ∈ l ∧ ∀ m ∈ rest, m ∈ l := by
  intro l
  induction l with
  | nil => intro n rest h; cases h
  | cons a r ih =>
    intro n rest h
    cases hp : popMin r with
    | none =>
      simp only [popMin, hp] at h
      obtain ⟨rfl, rfl⟩ := Prod.mk.inj (Option.some.inj h)
      exact ⟨List.mem_cons_self a r, fun m hm => by cases hm⟩
    | some pr =>
      obtain ⟨m0, r0⟩ := pr
      simp only [popMin, hp] at h
      obtain ⟨hm0, hr0⟩ := ih m0 r0 hp
      split at h
      · obtain ⟨rfl, rfl⟩ := Prod.mk.inj (Option.some.inj h)
        exact ⟨List.mem_cons_self _ _, fun m hm => List.mem_cons_of_mem a hm⟩
      · obtain ⟨rfl, rfl⟩ := Prod.mk.inj (Option.some.inj h)
        refine ⟨List.mem_cons_of_mem a hm0, ?_⟩
        intro m hm
        rcases List.mem_cons.mp hm with rfl | hm'
        · exact List.mem_cons_self _ _
        · exact List.mem_cons_of_mem a (hr0 m hm')

lemma processNeighbor_fst (goal : ℤ × ℤ) (cur : AStarNode)
    (acc : List AStarNode × List ((ℤ × ℤ) × ℚ)) (npos : ℤ × ℤ) :
    (processNeighbor goal cur acc npos).1 = acc.1 ∨
    (processNeighbor goal cur acc npos).1 =
      (⟨npos,
        cur.g_cost +
          (if npos.1 = cur.position.1 ∨ npos.2 = cur.position.2 then (1 : ℚ)
           else 1414 / 1000),
        heuristic npos goal, cur.position :: cur.trail⟩ : AStarNode) :: acc.1 := by
  cases hl : List.lookup npos acc.2 with
  | none =>
    right
    simp only [processNeighbor, hl]
  | some gOld =>
    by_cases hlt :
        cur.g_cost +
          (if npos.1 = cur.position.1 ∨ npos.2 = cur.position.2 then (1 : ℚ)
           else 1414 / 1000) < gOld
    · right
      simp only [processNeighbor, hl, if_pos hlt]
    · left
      simp only [processNeighbor, hl, if_neg hlt]

lemma processNeighbor_inv (gr : Grid) (diagonal : Bool) (s goal : ℤ × ℤ)
    (cur : AStarNode) (hcur : TrailFrom gr diagonal s cur.position cur.trail) :
    ∀ (l : List (ℤ × ℤ)) (acc : List AStarNode × List ((ℤ × ℤ) × ℚ)),
      (∀ n ∈ acc.1, TrailFrom gr diagonal s n.position n.trail) →
      (∀ p ∈ l, AStarStep gr diagonal cur.position p) →
      ∀ n ∈ (l.foldl (processNeighbor goal cur) acc).1,
        TrailFrom gr diagonal s n.position n.trail := by
  intro l
  induction l with
  | nil => intro acc hacc _ n hn; exact hacc n hn
  | cons p rest ih =>
    intro acc hacc hsteps
    rw [List.foldl_cons]
    apply ih
    · intro n hn
      rcases processNeighbor_fst goal cur acc p with he | he <;> rw [he] at hn
      · exact hacc n hn
      · rcases List.mem_cons.mp hn with rfl | hn'
        · exact ⟨hsteps p (List.mem_cons_self _ _), hcur⟩
        · exact hacc n hn'
    · intro q hq
      exact hsteps q (List.mem_cons_of_mem p hq)

lemma astarLoop_some_connected (gr : Grid) (goal : ℤ × ℤ) (diagonal : Bool)
    (s : ℤ × ℤ) :
    ∀ (fuel : ℕ) (open_set : List AStarNode) (closed : List (ℤ × ℤ))
      (node_g : List ((ℤ × ℤ) × ℚ)) (p : List (ℤ × ℤ)),
      (∀ n ∈ open_set, TrailFrom gr diagonal s n.position n.trail) →
      astarLoop gr goal diagonal fuel open_set closed node_g = some p →
      Connected gr diagonal s goal := by
  intro fuel
  induction fuel with
  | zero =>
    intro open_set closed node_g p _ h
    rw [astarLoop] at h
    cases h
  | succ fuel ih =>
    intro open_set closed node_g p hinv hres
    cases hp : popMin open_set with
    | none =>
      simp only [astarLoop, hp] at hres
      cases hres
    | some pr =>
      obtain ⟨cur, rest⟩ := pr
      simp only [astarLoop, hp] at hres
      obtain ⟨hcur_mem, hrest⟩ := popMin_subset open_set cur rest hp
      have hcur := hinv cur hcur_mem
      by_cases hg : cur.position = goal
      · rw [← hg]
        exact trailFrom_connected hcur
      · rw [if_neg hg] at hres
        refine ih _ _ _ p ?_ hres
        apply processNeighbor_inv gr diagonal s goal cur hcur
        · intro n hn
          exact hinv n (hrest n hn)
        · intro q hq
          exact (List.mem_filter.mp hq).1

/-- C3: `find_path` returns `None` whenever start or goal is on a
non-traversable cell (anything other than free or dock, including out of
bounds); returns the single-cell path `[start]` when start = goal on a
traversable cell; and returns `None` whenever no sequence of traversable
steps connects start to goal. -/
theorem astar_find_path_contract :
    (∀ (gr : Grid) (start goal : ℤ × ℤ) (diagonal : Bool),
      (is_valid_position gr start.1 start.2 = false ∨
        is_valid_position gr goal.1 goal.2 = false) →
      find_path gr start goal diagonal = none) ∧
    (∀ (gr : Grid) (start : ℤ × ℤ) (diagonal : Bool),
      is_valid_position gr start.1 start.2 = true →
      find_path gr start start diagonal = some [start]) ∧
    (∀ (gr : Grid) (start goal : ℤ × ℤ) (diagonal : Bool),
      ¬Connected gr diagonal start goal →
      find_path gr start goal diagonal = none) := by
  refine ⟨?_, ?_, ?_⟩
  · intro gr start goal diagonal h
    rw [find_path]
    rcases h with h | h <;> rw [if_neg (by simp [h])]
  · intro gr start diagonal hs
    rw [find_path, if_pos (by simp [hs])]
    obtain ⟨k, hk⟩ : ∃ k, (gr.width * gr.height + 1) ^ 2 = k + 1 := by
      have hpos : 0 < (gr.width * gr.height + 1) ^ 2 := by positivity
      exact ⟨(gr.width * gr.height + 1) ^ 2 - 1, by omega⟩
    rw [hk]
    simp [astarLoop, popMin, reconstruct]
  · intro gr start goal diagonal hnc
    cases hres : find_path gr start goal diagonal with
    | none => rfl
    | some p =>
      exfalso
      apply hnc
      rw [find_path] at hres
      by_cases hv : (is_valid_position gr start.1 start.2 &&
          is_valid_position gr goal.1 goal.2) = true
      · rw [if_pos hv] at hres
        refine astarLoop_some_connected gr goal diagonal start _ _ _ _ p ?_ hres
        intro n hn
        rw [List.mem_singleton] at hn
        subst hn
        rfl
      · rw [if_neg hv] at hres
        cases hres

/-- A 1×3 one-row grid: free, obstacle, free — the two free cells are not
connected. -/
def gridRow : Grid := ⟨1, 3, fun _ c => if c = 1 then 1 else 0⟩

/-- Witness for `astar_find_path_contract` on `gridRow`: an out-of-bounds
goal yields none, a traversable start = goal yields the one-cell path, and
the disconnected pair ((0,0), (2,0)) yields none. -/
theorem astar_find_path_contract_witness :
    (is_valid_position gridRow 3 0 = false ∧
      find_path gridRow (0, 0) (3, 0) true = none) ∧
    (is_valid_position gridRow 0 0 = true ∧
      find_path gridRow (0, 0) (0, 0) true = some [(0, 0)]) ∧
    (¬Connected gridRow true (0, 0) (2, 0) ∧
      find_path gridRow (0, 0) (2, 0) true = none) := by
  have hnc : ¬Connected gridRow true (0, 0) (2, 0) := by
    intro h
    rcases Relation.ReflTransGen.cases_head h with heq | ⟨c, hstep, _⟩
    · exact absurd heq (by decide)
    · have hmem : c ∈ get_neighbors gridRow 0 0 true := hstep
      have hn : get_neighbors gridRow 0 0 true = [] := by decide
      rw [hn] at hmem
      cases hmem
  refine ⟨⟨by decide, ?_⟩, ⟨by decide, ?_⟩, hnc, ?_⟩
  · exact astar_find_path_contract.1 gridRow (0, 0) (3, 0) true (Or.inr (by decide))
  · exact astar_find_path_contract.2.1 gridRow (0, 0) true (by decide)
  · exact astar_find_path_contract.2.2 gridRow (0, 0) (2, 0) true hnc

/-! ## Embedding of `environment.py` -/

/-- Cell types (`class CellType`). -/
inductive CellType where
  | free
  | obstacle
  | cliff
  | dock
  | dirty
deriving DecidableEq

/-- The `CellType(value)` enum conversion; unknown values raise in Python,
modelled by `none`. -/
def CellType.ofValue (v : ℤ) : Option CellType :=
  if v = 0 then some CellType.free
  else if v = 1 then some CellType.obstacle
  else if v = 2 then some CellType.cliff
  else if v = 3 then some CellType.dock
  else if v = 4 then some CellType.dirty
  else none

/-- State of `class Environment`: static map, its pristine copy, the dirt
bitmap, dock, and simulated time. -/
structure Environment where
  height : ℕ
  width : ℕ
  env : ℕ → ℕ → ℤ
  original_env : ℕ → ℕ → ℤ
  dirt_map : ℕ → ℕ → Bool
  dock_position : Option (ℤ × ℤ)
  sim_time : ℝ
  tick_rate : ℝ

/-- In-bounds test `0 <= x < self.width and 0 <= y < self.height`. -/
def Environment.inBounds (e : Environment) (x y : ℤ) : Prop :=
  0 ≤ x ∧ x < (e.width : ℤ) ∧ 0 ≤ y ∧ y < (e.height : ℤ)

instance (e : Environment) (x y : ℤ) : Decidable (e.inBounds x y) := by
  unfold Environment.inBounds
  infer_instance

/-- `Environment.get_cell_type`: out-of-bounds reads return obstacle. -/
def Environment.get_cell_type (e : Environment) (x y : ℤ) : Option CellType :=
  if e.inBounds x y then CellType.ofValue (e.env y.toNat x.toNat)
  else some CellType.obstacle

/-- `Environment.clean_cell`: clears the dirt bit in bounds, otherwise a
no-op. -/
def Environment.clean_cell (e : Environment) (x y : ℤ) : Environment :=
  if e.inBounds x y then
    { e with
      dirt_map := fun r c =>
        if r = y.toNat ∧ c = x.toNat then false else e.dirt_map r c }
  else e

/-- C9: out-of-bounds environment access is total and defined — for every
(x, y) outside the grid, `get_cell_type` returns obstacle and `clean_cell`
returns the environment unchanged (dirt map and all other state). -/
theorem out_of_bounds_access (e : Environment) (x y : ℤ)
    (h : ¬e.inBounds x y) :
    e.get_cell_type x y = some CellType.obstacle ∧ e.clean_cell x y = e := by
  rw [Environment.get_cell_type, if_neg h, Environment.clean_cell, if_neg h]
  exact ⟨rfl, rfl⟩

/-- Witness for `out_of_bounds_access`: a concrete 1×1 environment accessed
at (−1, 0). -/
theorem out_of_bounds_access_witness :
    ¬(⟨1, 1, fun _ _ => 0, fun _ _ => 0, fun _ _ => true, none, 0, 1⟩ :
        Environment).inBounds (-1) 0 ∧
    (⟨1, 1, fun _ _ => 0, fun _ _ => 0, fun _ _ => true, none, 0, 1⟩ :
        Environment).get_cell_type (-1) 0 = some CellType.obstacle ∧
    ((⟨1, 1, fun _ _ => 0, fun _ _ => 0, fun _ _ => true, none, 0, 1⟩ :
        Environment).clean_cell (-1) 0 =
      ⟨1, 1, fun _ _ => 0, fun _ _ => 0, fun _ _ => true, none, 0, 1⟩) := by
  have h : ¬(⟨1, 1, fun _ _ => 0, fun _ _ => 0, fun _ _ => true, none, 0, 1⟩ :
      Environment).inBounds (-1) 0 := by
    rw [Environment.inBounds]
    push_neg
    intro hc
    omega
  exact ⟨h, out_of_bounds_access _ (-1) 0 h⟩

/-! ## Embedding of `slam.py`: occupancy probabilities and the particle
filter -/

/-- A particle (`class Particle`). -/
structure Particle where
  x : ℝ
  y : ℝ
  theta : ℝ
  weight : ℝ

/-- Occupancy grid state (`class OccupancyGrid`): log-odds values and the
observed mask. -/
structure OccupancyGrid where
  width : ℕ
  height : ℕ
  grid : ℕ → ℕ → ℝ
  observed : ℕ → ℕ → Bool

/-- `OccupancyGrid.get_probability`: 0.5 out of bounds or unobserved, else
the log-odds converted to a probability. -/
noncomputable def OccupancyGrid.get_probability (og : OccupancyGrid) (x y : ℤ) : ℝ :=
  if 0 ≤ x ∧ x < (og.width : ℤ) ∧ 0 ≤ y ∧ y < (og.height : ℤ) then
    if og.observed y.toNat x.toNat then
      Real.exp (og.grid y.toNat x.toNat) / (1 + Real.exp (og.grid y.toNat x.toNat))
    else 1 / 2
  else 1 / 2

/-- State of `class ParticleFilter`. -/
structure ParticleFilter where
  num_particles : ℕ
  width : ℕ
  height : ℕ
  particles : List Particle

/-- `ParticleFilter.__init__`; the uniform random draws are supplied as an
explicit sequence of (x, y, θ) per particle index. -/
noncomputable def ParticleFilter.init (num_particles width height : ℕ)
    (draw : ℕ → ℝ × ℝ × ℝ) : ParticleFilter :=
  ⟨num_particles, width, height,
    (List.range num_particles).map fun i =>
      ⟨(draw i).1, (draw i).2.1, (draw i).2.2, 1 / (num_particles : ℝ)⟩⟩

/-- Python float modulo for a positive modulus. -/
noncomputable def fmod (a b : ℝ) : ℝ := a - b * ⌊a / b⌋

/-- `ParticleFilter.predict`; the Gaussian noise draws are supplied as an
explicit sequence.  θ is wrapped modulo 2π and the position clipped to the
grid bounds. -/
noncomputable def ParticleFilter.predict (pf : ParticleFilter)
    (delta_x delta_y delta_theta : ℝ) (noise : ℕ → ℝ × ℝ × ℝ) : ParticleFilter :=
  { pf with
    particles := pf.particles.mapIdx fun i p =>
      { x := min (max (p.x + delta_x + (noise i).1) 0) ((pf.width : ℝ) - 1)
        y := min (max (p.y + delta_y + (noise i).2.1) 0) ((pf.height : ℝ) - 1)
        theta := fmod (p.theta + delta_theta + (noise i).2.2) (2 * Real.pi)
        weight := p.weight } }

/-- One accumulation step of the measurement likelihood: the observation is
mapped through `int(particle.x + (obs_x - particle.x))` and contributes its
occupancy probability when in bounds. -/
noncomputable def likeStep (pf : ParticleFilter) (og : OccupancyGrid) (p : Particle)
    (acc : ℝ) (obs : ℤ × ℤ) : ℝ :=
  let map_x : ℤ := truncInt (p.x + ((obs.1 : ℝ) - p.x))
  let map_y : ℤ := truncInt (p.y + ((obs.2 : ℝ) - p.y))
  if 0 ≤ map_x ∧ map_x < (pf.width : ℤ) ∧ 0 ≤ map_y ∧ map_y < (pf.height : ℤ) then
    acc + og.get_probability map_x map_y
  else acc

/-- Likelihood of a measurement list for one particle. -/
noncomputable def particleLikelihood (pf : ParticleFilter) (og : OccupancyGrid)
    (measurement : List (ℤ × ℤ)) (p : Particle) : ℝ :=
  measurement.foldl (likeStep pf og p) 0

/-- `ParticleFilter.update`: empty measurements are a no-op; otherwise each
particle's weight becomes likelihood + 1e-10 and the weights are normalized
when their total is positive. -/
noncomputable def ParticleFilter.update (pf : ParticleFilter)
    (measurement : List (ℤ × ℤ)) (og : OccupancyGrid) : ParticleFilter :=
  if measurement = [] then pf
  else
    let weighted := pf.particles.map fun p =>
      { p with weight := particleLikelihood pf og measurement p + 1 / 10 ^ 10 }
    let total_weight := (weighted.map Particle.weight).sum
    if 0 < total_weight then
      { pf with
        particles := weighted.map fun p => { p with weight := p.weight / total_weight } }
    else
      { pf with particles := weighted }

/-- The inner `while u > c` index advance of low-variance resampling, with a
step budget; the budget is immaterial to the verified count claim. -/
noncomputable def resampleAdvance (particles : List Particle) (u : ℝ) :
    ℕ → ℕ × ℝ → ℕ × ℝ
  | 0, ic => ic
  | fuel + 1, (i, c) =>
    if u ≤ c then (i, c)
    else
      let i2 := if particles.length ≤ i + 1 then 0 else i + 1
      resampleAdvance particles u fuel
        (i2, c + (particles.getD i2 ⟨0, 0, 0, 0⟩).weight)

/-- One draw of the resampling loop: advance the cursor past weight mass u,
copy the selected particle with jitter, and reset its weight to 1/N. -/
noncomputable def resampleStep (pf : ParticleFilter) (r : ℝ)
    (jitter : ℕ → ℝ × ℝ × ℝ) (st : ℕ × ℝ × List Particle) (m : ℕ) :
    ℕ × ℝ × List Particle :=
  let u := r + (m : ℝ) * (1 / (pf.num_particles : ℝ))
  let ic := resampleAdvance pf.particles u
    (pf.num_particles * (pf.particles.length + 1) + pf.particles.length + 1)
    (st.1, st.2.1)
  let src := pf.particles.getD ic.1 ⟨0, 0, 0, 0⟩
  (ic.1, ic.2,
    st.2.2 ++ [⟨src.x + (jitter m).1, src.y + (jitter m).2.1,
      src.theta + (jitter m).2.2, 1 / (pf.num_particles : ℝ)⟩])

/-- `ParticleFilter.resample`: draws exactly `num_particles` new
particles. -/
noncomputable def ParticleFilter.resample (pf : ParticleFilter) (r : ℝ)
    (jitter : ℕ → ℝ × ℝ × ℝ) : ParticleFilter :=
  { pf with
    particles :=
      ((List.range pf.num_particles).foldl (resampleStep pf r jitter)
        (0, (pf.particles.getD 0 ⟨0, 0, 0, 0⟩).weight, [])).2.2 }

lemma get_probability_nonneg (og : OccupancyGrid) (x y : ℤ) :
    0 ≤ og.get_probability x y := by
  rw [OccupancyGrid.get_probability]
  split
  · split
    · positivity
    · norm_num
  · norm_num

lemma likeStep_ge (pf : ParticleFilter) (og : OccupancyGrid) (p : Particle)
    (acc : ℝ) (obs : ℤ × ℤ) : acc ≤ likeStep pf og p acc obs := by
  rw [likeStep]
  split
  · have := get_probability_nonneg og (truncInt (p.x + ((obs.1 : ℝ) - p.x)))
      (truncInt (p.y + ((obs.2 : ℝ) - p.y)))
    linarith
  · exact le_rfl

lemma foldl_likeStep_ge (pf : ParticleFilter) (og : OccupancyGrid) (p : Particle) :
    ∀ (l : List (ℤ × ℤ)) (acc : ℝ), acc ≤ l.foldl (likeStep pf og p) acc := by
  intro l
  induction l with
  | nil => intro acc; exact le_rfl
  | cons obs rest ih =>
    intro acc
    rw [List.foldl_cons]
    exact le_trans (likeStep_ge pf og p acc obs) (ih _)

lemma particleLikelihood_nonneg (pf : ParticleFilter) (og : OccupancyGrid)
    (measurement : List (ℤ × ℤ)) (p : Particle) :
    0 ≤ particleLikelihood pf og measurement p :=
  foldl_likeStep_ge pf og p measurement 0

lemma sum_pos_of_forall_le {l : List ℝ} {e : ℝ} (he : 0 < e)
    (hl : l ≠ []) (h : ∀ x ∈ l, e ≤ x) : 0 < l.sum := by
  cases l with
  | nil => exact absurd rfl hl
  | cons a t =>
    rw [List.sum_cons]
    have ha : e ≤ a := h a (List.mem_cons_self _ _)
    have ht : 0 ≤ t.sum :=
      List.sum_nonneg fun x hx => le_trans he.le (h x (List.mem_cons_of_mem a hx))
    linarith

lemma resample_fold_length (pf : ParticleFilter) (r : ℝ)
    (jitter : ℕ → ℝ × ℝ × ℝ) :
    ∀ (l : List ℕ) (st : ℕ × ℝ × List Particle),
      ((l.foldl (resampleStep pf r jitter) st).2.2).length =
        st.2.2.length + l.length := by
  intro l
  induction l with
  | nil => intro st; simp
  | cons m rest ih =>
    intro st
    rw [List.foldl_cons, ih]
    simp only [resampleStep]
    rw [List.length_append]
    simp only [List.length_cons, List.length_nil]
    omega

/-- C8: after any `update` whose measurement list is nonempty (on a filter
with at least one particle) the weights sum to 1 within 1e-6 (exactly 1 in
the real-number model); and the particle count equals `num_particles` after
`init`, is preserved by `predict` and `update`, and is restored to
`num_particles` by `resample`. -/
theorem particle_filter_invariants :
    (∀ (pf : ParticleFilter) (ms : List (ℤ × ℤ)) (og : OccupancyGrid),
      ms ≠ [] → pf.particles ≠ [] →
      |((pf.update ms og).particles.map Particle.weight).sum - 1| ≤ 1 / 10 ^ 6) ∧
    (∀ (n w h : ℕ) (draw : ℕ → ℝ × ℝ × ℝ),
      (ParticleFilter.init n w h draw).particles.length = n ∧
      (ParticleFilter.init n w h draw).num_particles = n) ∧
    (∀ (pf : ParticleFilter) (dx dy dth : ℝ) (noise : ℕ → ℝ × ℝ × ℝ),
      (pf.predict dx dy dth noise).particles.length = pf.particles.length ∧
      (pf.predict dx dy dth noise).num_particles = pf.num_particles) ∧
    (∀ (pf : ParticleFilter) (ms : List (ℤ × ℤ)) (og : OccupancyGrid),
      (pf.update ms og).particles.length = pf.particles.length ∧
      (pf.update ms og).num_particles = pf.num_particles) ∧
    (∀ (pf : ParticleFilter) (r : ℝ) (jitter : ℕ → ℝ × ℝ × ℝ),
      (pf.resample r jitter).particles.length = pf.num_particles ∧
      (pf.resample r jitter).num_particles = pf.num_particles) := by
  have hupdate : ∀ (pf : ParticleFilter) (ms : List (ℤ × ℤ)) (og : OccupancyGrid),
      ms ≠ [] → pf.particles ≠ [] →
      ((pf.update ms og).particles.map Particle.weight).sum = 1 := by
    intro pf ms og hms hne
    rw [ParticleFilter.update, if_neg hms]
    simp only
    set W := pf.particles.map fun p =>
      { p with weight := particleLikelihood pf og ms p + 1 / 10 ^ 10 } with hW
    have hforall : ∀ x ∈ W.map Particle.weight, (1 : ℝ) / 10 ^ 10 ≤ x := by
      intro x hx
      rw [hW, List.map_map] at hx
      obtain ⟨p, _, rfl⟩ := List.mem_map.mp hx
      have := particleLikelihood_nonneg pf og ms p
      simp only [Function.comp_apply]
      linarith
    have hnil : W.map Particle.weight ≠ [] := by
      rw [hW]
      intro hcon
      rw [List.map_eq_nil_iff, List.map_eq_nil_iff] at hcon
      exact hne hcon
    have hT : 0 < (W.map Particle.weight).sum :=
      sum_pos_of_forall_le (by norm_num) hnil hforall
    rw [if_pos hT, List.map_map]
    have hcomp : (Particle.weight ∘ fun p : Particle =>
        { p with weight := p.weight / (W.map Particle.weight).sum }) =
        fun p : Particle => p.weight * ((W.map Particle.weight).sum)⁻¹ := by
      funext p
      simp [div_eq_mul_inv]
    rw [hcomp, List.sum_map_mul_right]
    exact mul_inv_cancel₀ (ne_of_gt hT)
  refine ⟨?_, ?_, ?_, ?_, ?_⟩
  · intro pf ms og hms hne
    rw [hupdate pf ms og hms hne]
    norm_num
  · intro n w h draw
    exact ⟨by simp [ParticleFilter.init], rfl⟩
  · intro pf dx dy dth noise
    exact ⟨by simp [ParticleFilter.predict], rfl⟩
  · intro pf ms og
    by_cases hms : ms = []
    · rw [ParticleFilter.update, if_pos hms]
      exact ⟨rfl, rfl⟩
    · rw [ParticleFilter.update, if_neg hms]
      simp only
      constructor
      · split <;> simp
      · split <;> rfl
  · intro pf r jitter
    refine ⟨?_, rfl⟩
    rw [ParticleFilter.resample]
    simp only
    rw [resample_fold_length]
    simp

/-- Witness for `particle_filter_invariants`: a one-particle filter updated
with a single observation on an all-unknown occupancy grid. -/
theorem particle_filter_invariants_witness :
    ([((0 : ℤ), (0 : ℤ))] ≠ ([] : List (ℤ × ℤ))) ∧
    (ParticleFilter.init 1 1 1 fun _ => (0, 0, 0)).particles ≠ [] ∧
    |((((ParticleFilter.init 1 1 1 fun _ => (0, 0, 0)).update [(0, 0)]
        ⟨1, 1, fun _ _ => 0, fun _ _ => false⟩).particles.map
        Particle.weight).sum - 1)| ≤ 1 / 10 ^ 6 := by
  have h1 : ([((0 : ℤ), (0 : ℤ))] ≠ ([] : List (ℤ × ℤ))) := by simp
  have h2 : (ParticleFilter.init 1 1 1 fun _ => (0, 0, 0)).particles ≠ [] := by
    simp [ParticleFilter.init]
  exact ⟨h1, h2, particle_filter_invariants.1 _ _ _ h1 h2⟩

end RobotSim
